import Mathlib

/-!
Verification of the igloc scanner / export / import pipeline.

This file gives a shallow embedding of the Go sources:
  internal/scanner/scanner.go   (categorizeFile, isSecretFile, isInDepsDir, Scan)
  internal/cli export command   (collectSingleRepo, createExportZip)
  internal/cli import command   (resolveDestPath, importFiles, extractFile)

Filesystem and git interaction are modelled abstractly: the list of
git-ignored paths, the stat results, the source file contents and the
success of directory creation / file creation are inputs (oracles) of the
embedded functions.  Machine integers (int64 file sizes) are modelled as
Nat, which is faithful because the code only ever adds non-negative sizes.
File contents are byte lists (List Nat).

Go string primitives (strings.HasPrefix, strings.Contains, strings.ToLower,
path/filepath Base, Ext, Clean, Join, Dir, strings.SplitN with n = 2) are
embedded as executable character-list functions with the semantics of the
Go standard library on slash-separated paths.
-/

namespace Igloc

/-- Go strings.HasPrefix on character lists: charsPfx pre s. -/
def charsPfx : List Char → List Char → Bool
  | [], _ => true
  | _ :: _, [] => false
  | c :: cs, d :: ds => c == d && charsPfx cs ds

/-- Go strings.Contains on character lists: charsInfix pat s is true iff pat
occurs contiguously inside s (true for the empty pattern). -/
def charsInfix (pat : List Char) : List Char → Bool
  | [] => pat.isEmpty
  | d :: ds => charsPfx pat (d :: ds) || charsInfix pat ds

/-- Go strings.HasPrefix. -/
def goHasPfx (s pre : String) : Bool := charsPfx pre.data s.data

/-- Go strings.Contains. -/
def goContains (s sub : String) : Bool := charsInfix sub.data s.data

/-- Go strings.TrimPrefix: drop pre when it is a prefix of s, else s. -/
def goTrimPfx (s pre : String) : String :=
  if charsPfx pre.data s.data then String.mk (s.data.drop pre.data.length) else s

/-- Go strings.ToLower (ASCII letters, which is all the classifier needs). -/
def goToLower (s : String) : String := String.mk (s.data.map Char.toLower)

/-- Go path/filepath.Base on slash-separated paths. -/
def goBase (path : String) : String :=
  if path = "" then "."
  else
    let cs := path.data.reverse.dropWhile (fun c => c == '/')
    if cs.isEmpty then "/"
    else String.mk (cs.takeWhile (fun c => c != '/')).reverse

/-- Go path/filepath.Ext: the suffix of the final path element starting at
its final dot, or the empty string. -/
def goExt (path : String) : String :=
  let seg := path.data.reverse.takeWhile (fun c => c != '/')
  if seg.contains '.' then
    String.mk ('.' :: (seg.takeWhile (fun c => c != '.')).reverse)
  else ""

/-- Split a character list at every sep, Go strings.Split. -/
def splitOnChar (sep : Char) : List Char → List (List Char)
  | [] => [[]]
  | c :: cs =>
    let r := splitOnChar sep cs
    if c == sep then [] :: r
    else
      match r with
      | [] => [[c]]
      | h :: t => (c :: h) :: t

/-- Join segments with a slash separator. -/
def joinSlash : List (List Char) → List Char
  | [] => []
  | [s] => s
  | s :: ss => s ++ '/' :: joinSlash ss

/-- The element-processing loop of Go path/filepath.Clean: empty and dot
segments vanish, a dotdot segment pops the previous segment, dotdot at the
root vanishes, dotdot at the start of a relative path is kept.  The
accumulator holds the output segments in reverse. -/
def cleanSegs (rooted : Bool) : List String → List String → List String
  | acc, [] => acc.reverse
  | acc, seg :: rest =>
    if seg = "" || seg = "." then cleanSegs rooted acc rest
    else if seg = ".." then
      match acc with
      | [] => if rooted then cleanSegs rooted [] rest else cleanSegs rooted [".."] rest
      | top :: acc2 =>
        if top = ".." then cleanSegs rooted (seg :: top :: acc2) rest
        else cleanSegs rooted acc2 rest
    else cleanSegs rooted (seg :: acc) rest

/-- Go path/filepath.Clean on slash-separated paths. -/
def goClean (path : String) : String :=
  if path = "" then "."
  else
    let rooted := goHasPfx path "/"
    let segs := (splitOnChar '/' path.data).map String.mk
    match rooted, cleanSegs rooted [] segs with
    | true, [] => "/"
    | false, [] => "."
    | true, es => String.mk ('/' :: joinSlash (es.map String.data))
    | false, es => String.mk (joinSlash (es.map String.data))

/-- Go path/filepath.Join: join the elements starting at the first
non-empty one with slashes and Clean the result; all-empty input gives
the empty string. -/
def goJoinList : List String → String
  | [] => ""
  | e :: rest =>
    if e = "" then goJoinList rest
    else goClean (String.mk (joinSlash ((e :: rest).map String.data)))

/-- Go path/filepath.Dir: everything up to and including the final slash,
Cleaned; a path with no slash has directory dot. -/
def goDir (path : String) : String :=
  let rev := path.data.reverse
  let rest := rev.dropWhile (fun c => c != '/')
  goClean (String.mk rest.reverse)

/-- Go strings.SplitN(s, slash, 2): split at the first slash only. -/
def splitFirst (sep : Char) : List Char → Option (List Char × List Char)
  | [] => none
  | c :: cs =>
    if c == sep then some ([], cs)
    else
      match splitFirst sep cs with
      | none => none
      | some (a, b) => some (c :: a, b)

/-- Go strings.SplitN(s, slash, 2) as a list of one or two strings. -/
def goSplitN2 (s : String) : List String :=
  match splitFirst '/' s.data with
  | none => [s]
  | some (a, b) => [String.mk a, String.mk b]

/-! ## Classifier (internal/scanner/scanner.go: categorizeFile, isSecretFile) -/

/-- keyPatterns of categorizeFile. -/
def keyPatterns : List String :=
  ["key", "secret", "credential", "token", "password",
   "private", "pem", "p12", "pfx", "keystore"]

/-- buildDirs of categorizeFile. -/
def buildDirs : List String :=
  ["node_modules", "dist", "build", ".next", "__pycache__", "target", "bin", "obj"]

/-- ideDirs of categorizeFile. -/
def ideDirs : List String := [".idea", ".vscode", ".vs"]

/-- The env test of categorizeFile (name is the lowercased basename). -/
def envCond (name : String) : Bool :=
  goHasPfx name ".env" || goHasPfx name "env."

/-- The key tests of categorizeFile: a keyword inside the basename, or a
key-like extension (two consecutive returns of key in the source). -/
def keyCond (name ext : String) : Bool :=
  keyPatterns.any (fun pat => goContains name pat)
    || (ext = ".pem" || ext = ".key" || ext = ".p12" || ext = ".pfx")

/-- The config test of categorizeFile. -/
def configCond (name ext : String) : Bool :=
  (ext = ".json" || ext = ".yaml" || ext = ".yml" || ext = ".toml" || ext = ".ini")
    && (goContains name "config" || goContains name "setting")

/-- The build test of categorizeFile.  Note it is a substring test on the
whole path, not a path-segment test. -/
def buildCond (path : String) : Bool :=
  buildDirs.any (fun dir =>
    goContains path (dir ++ "/") || goHasPfx path (dir ++ "/") || path = dir)

/-- The cache test of categorizeFile. -/
def cacheCond (path name : String) : Bool :=
  goContains path "cache" || (goHasPfx name "." && goContains name "cache")

/-- The ide test of categorizeFile. -/
def ideCond (path : String) : Bool :=
  ideDirs.any (fun dir => goHasPfx path (dir ++ "/") || path = dir)

/-- scanner.go categorizeFile: first matching rule wins, in source order;
name and ext of the source are the lowercased basename and extension. -/
def categorizeFile (path : String) : String :=
  if envCond (goToLower (goBase path)) then "env"
  else if keyCond (goToLower (goBase path)) (goToLower (goExt path)) then "key"
  else if configCond (goToLower (goBase path)) (goToLower (goExt path)) then "config"
  else if buildCond path then "build"
  else if cacheCond path (goToLower (goBase path)) then "cache"
  else if ideCond path then "ide"
  else "other"

/-- secretPatterns of isSecretFile. -/
def secretPatterns : List String :=
  ["secret", "credential", "password", "token",
   "auth", "api_key", "apikey", ".npmrc", ".netrc",
   "id_rsa", "id_dsa", "id_ecdsa", "id_ed25519"]

/-- The fallback basename test of isSecretFile. -/
def hasSecretName (path : String) : Bool :=
  secretPatterns.any (fun pat => goContains (goToLower (goBase path)) pat)

/-- scanner.go isSecretFile: env and key categories are always secret,
otherwise a basename keyword decides. -/
def isSecretFile (path category : String) : Bool :=
  if category = "env" || category = "key" then true
  else hasSecretName path

/-- depsDirs of isInDepsDir. -/
def depsDirs : List String :=
  ["node_modules/", "vendor/", ".venv/", "venv/", "__pycache__/",
   ".gradle/", "target/", "Pods/"]

/-- scanner.go isInDepsDir. -/
def isInDepsDir (path : String) : Bool :=
  depsDirs.any (fun dir => goHasPfx path dir || goContains path ("/" ++ dir))

/-! ## Scanner (scanner.go: Scanner, IgnoredFile, ScanResult, Scan)

The git interaction (isGitRepo, getGitIgnoredFiles) and os.Stat are
abstracted into a ScanInput: whether the root is a repository, the list of
ignored paths git reports, and a stat oracle.  The root path is taken
already absolute (filepath.Abs is the identity on absolute paths). -/

/-- scanner.go IgnoredFile.  Size is int64 in the source and always a stat
size, hence non-negative: Nat. -/
structure IgnoredFile where
  Path : String
  Size : Nat
  IsSecret : Bool
  Category : String
deriving DecidableEq, Repr

/-- scanner.go ScanResult. -/
structure ScanResult where
  RootPath : String
  IgnoredFiles : List IgnoredFile
  TotalSize : Nat
  SecretCount : Nat
deriving DecidableEq, Repr

/-- scanner.go Scanner configuration. -/
structure Scanner where
  ShowAll : Bool
  Categories : List String
  ExcludeDeps : Bool
deriving DecidableEq, Repr

/-- scanner.go NewScanner. -/
def NewScanner : Scanner :=
  { ShowAll := false, Categories := [], ExcludeDeps := true }

/-- Result of the os.Stat oracle for one path. -/
structure StatInfo where
  IsDir : Bool
  Size : Nat
deriving DecidableEq, Repr

/-- The environment a Scan runs against. -/
structure ScanInput where
  rootPath : String
  isRepo : Bool
  ignoredPaths : List String
  stat : String → Option StatInfo

/-- The body of the loop of Scan for one ignored path: dependency-directory
suppression, stat, directory skip, classification and conditional
inclusion with aggregate accumulation. -/
def scanStep (s : Scanner) (inp : ScanInput) (acc : ScanResult) (path : String) :
    ScanResult :=
  if s.ExcludeDeps && isInDepsDir path then acc
  else
    match inp.stat (goJoinList [inp.rootPath, path]) with
    | none => acc
    | some info =>
      if info.IsDir then acc
      else
        if s.ShowAll || isSecretFile path (categorizeFile path) then
          { acc with
            IgnoredFiles := acc.IgnoredFiles ++
              [{ Path := path, Size := info.Size,
                 IsSecret := isSecretFile path (categorizeFile path),
                 Category := categorizeFile path }],
            TotalSize := acc.TotalSize + info.Size,
            SecretCount := acc.SecretCount +
              (if isSecretFile path (categorizeFile path) then 1 else 0) }
        else acc

/-- scanner.go Scan: empty result for a non-repository, otherwise the loop
over the ignored paths. -/
def Scan (s : Scanner) (inp : ScanInput) : ScanResult :=
  if inp.isRepo then
    inp.ignoredPaths.foldl (scanStep s inp)
      { RootPath := inp.rootPath, IgnoredFiles := [], TotalSize := 0, SecretCount := 0 }
  else
    { RootPath := inp.rootPath, IgnoredFiles := [], TotalSize := 0, SecretCount := 0 }

/-! ## Export (internal/cli export command)

A zip archive is modelled as the manifest it carries (the structured value
serialized into manifest.yaml; reading it back is readManifest) together
with its remaining entries, each a name and a byte content.  The clock and
hostname of the manifest and the source filesystem are oracles. -/

/-- RepoExport of the export command. -/
structure RepoExport where
  Name : String
  Path : String
  Files : List String
deriving DecidableEq, Repr

/-- Manifest of the export command.  CreatedAt (a wall-clock timestamp,
informational only) is modelled as a Nat tick. -/
structure Manifest where
  Version : Nat
  CreatedAt : Nat
  Machine : String
  Repos : List RepoExport
deriving DecidableEq, Repr

/-- One non-manifest entry of the zip archive. -/
structure ZipEntry where
  name : String
  content : List Nat
deriving DecidableEq, Repr

/-- A zip archive: the manifest.yaml record plus the other entries. -/
structure Archive where
  manifest : Manifest
  entries : List ZipEntry
deriving DecidableEq, Repr

/-- The scanner runExport constructs: NewScanner with ExcludeDeps set from
the include-deps flag, ShowAll left at its default false. -/
def exportScanner (includeDeps : Bool) : Scanner :=
  { NewScanner with ExcludeDeps := !includeDeps }

/-- collectSingleRepo of the export command: scan one repository and keep
the paths of the secret files; nothing to export yields no RepoExport. -/
def collectSingleRepo (s : Scanner) (inp : ScanInput) : List RepoExport :=
  if (Scan s inp).IgnoredFiles.length = 0 then []
  else if (((Scan s inp).IgnoredFiles.filter (fun f => f.IsSecret)).map
      (fun f => f.Path)).length = 0 then []
  else
    [{ Name := goBase inp.rootPath, Path := inp.rootPath,
       Files := ((Scan s inp).IgnoredFiles.filter (fun f => f.IsSecret)).map
         (fun f => f.Path) }]

/-- createExportZip of the export command: a version-1 manifest, the
optional patterns.yaml copy, then one entry files/name/path per
(repo, file) pair whose source file is readable; an unreadable source file
is skipped with a warning, never fatal. -/
def createExportZip (srcFs : String → Option (List Nat)) (patterns : Option (List Nat))
    (hostname : String) (now : Nat) (repos : List RepoExport) : Archive :=
  let manifest : Manifest :=
    { Version := 1, CreatedAt := now, Machine := hostname, Repos := repos }
  let patternEntries : List ZipEntry :=
    match patterns with
    | some d => [{ name := "patterns.yaml", content := d }]
    | none => []
  let fileEntries : List ZipEntry :=
    repos.flatMap (fun repo =>
      repo.Files.filterMap (fun filePath =>
        match srcFs (goJoinList [repo.Path, filePath]) with
        | none => none
        | some content =>
          some { name := goJoinList ["files", repo.Name, filePath], content := content }))
  { manifest := manifest, entries := patternEntries ++ fileEntries }

/-! ## Import (internal/cli import command)

importFiles walks the archive entries; os.MkdirAll and the
os.Create / Chmod / io.Copy sequence of extractFile are abstracted into
two oracles telling whether they succeed at a given path, and the observable
outcome of the loop is the list of per-entry events in order: one extracted
event (the checkmark line, carrying the destination and the bytes written)
or one failure event (the cross line) per processed entry. -/

/-- One observable outcome of the importFiles loop. -/
inductive ImportEvent where
  | extracted (entryName destPath : String) (content : List Nat)
  | failedMkdir (entryName filePath : String)
  | failedExtract (entryName filePath : String)
deriving DecidableEq, Repr

/-- The archive entry name an event was produced from. -/
def eventName : ImportEvent → String
  | .extracted n _ _ => n
  | .failedMkdir n _ => n
  | .failedExtract n _ => n

/-- True for the failure events (the cross lines). -/
def isFailure : ImportEvent → Bool
  | .extracted _ _ _ => false
  | .failedMkdir _ _ => true
  | .failedExtract _ _ => true

/-- Number of per-file failures reported by an import. -/
def countFailures (evs : List ImportEvent) : Nat := evs.countP isFailure

/-- Number of files successfully extracted by an import. -/
def countSuccesses (evs : List ImportEvent) : Nat :=
  evs.countP (fun ev => !isFailure ev)

/-- The repoMap lookup of importFiles: the Go map is filled in manifest
order, so a later repository with the same name wins. -/
def lookupRepo (repos : List RepoExport) (name : String) : Option RepoExport :=
  repos.foldl (fun acc r => if r.Name = name then some r else acc) none

/-- resolveDestPath of the import command: the base-directory override
first, then the exported absolute path when it exists as a directory here,
then the repository name under the current directory. -/
def resolveDestPath (baseDir : String) (dirEx : String → Bool)
    (repo : RepoExport) (filePath : String) : String :=
  if baseDir ≠ "" then goJoinList [baseDir, repo.Name, filePath]
  else if dirEx repo.Path then goJoinList [repo.Path, filePath]
  else goJoinList [".", repo.Name, filePath]

/-- One iteration of the importFiles loop over a zip entry: entries outside
files/, entries without a second path segment and entries of unknown
repositories are skipped silently (none); otherwise the destination is
resolved and the MkdirAll and extractFile steps run, each failure becoming
a reported per-file event. -/
def processEntry (mkdirOk createOk : String → Bool) (manifest : Manifest)
    (baseDir : String) (dirEx : String → Bool) (e : ZipEntry) : Option ImportEvent :=
  if goHasPfx e.name "files/" then
    match goSplitN2 (goTrimPfx e.name "files/") with
    | [repoName, filePath] =>
      match lookupRepo manifest.Repos repoName with
      | none => none
      | some repo =>
        if mkdirOk (goDir (resolveDestPath baseDir dirEx repo filePath)) then
          if createOk (resolveDestPath baseDir dirEx repo filePath) then
            some (.extracted e.name (resolveDestPath baseDir dirEx repo filePath) e.content)
          else some (.failedExtract e.name filePath)
        else some (.failedMkdir e.name filePath)
    | _ => none
  else none

/-- importFiles of the import command: the loop over all archive entries. -/
def importFiles (mkdirOk createOk : String → Bool) (entries : List ZipEntry)
    (manifest : Manifest) (baseDir : String) (dirEx : String → Bool) :
    List ImportEvent :=
  entries.filterMap (processEntry mkdirOk createOk manifest baseDir dirEx)

/-- The filesystem writes an import performs: each extracted event is an
os.Create of its destination with the entry bytes (truncating any previous
content), in loop order. -/
def applyEvents (evs : List ImportEvent) (fs : String → Option (List Nat)) :
    String → Option (List Nat) :=
  evs.foldl
    (fun acc ev =>
      match ev with
      | .extracted _ dest content => fun p => if p = dest then some content else acc p
      | _ => acc)
    fs

/-! ## Generic lemmas about the embedded Go string primitives -/

/-- A character list is a charsPfx of itself followed by anything. -/
lemma charsPfx_append_self (l t : List Char) : charsPfx l (l ++ t) = true := by
  induction l with
  | nil => rfl
  | cons c cs ih => simp [charsPfx, ih]

/-- Appending on the right keeps the prefix test true. -/
lemma goHasPfx_append (s t : String) : goHasPfx (s ++ t) s = true := by
  unfold goHasPfx
  rw [String.data_append]
  exact charsPfx_append_self _ _

/-- Dropping the length of a left factor of an append returns the right
factor. -/
lemma drop_length_append (a b : List Char) : (a ++ b).drop a.length = b := by
  induction a with
  | nil => rfl
  | cons c cs ih => simp [ih]

/-- Rebuilding a string from its character data is the identity. -/
lemma strMk_data (s : String) : String.mk s.data = s := rfl

/-- Trimming a prefix it just appended returns the suffix. -/
lemma goTrimPfx_append (s t : String) : goTrimPfx (s ++ t) s = t := by
  unfold goTrimPfx
  rw [String.data_append, charsPfx_append_self]
  simp [drop_length_append]

/-- A slash-free list followed by a slash splits at that slash. -/
lemma splitFirst_append (a b : List Char) (h : charsInfix ['/'] a = false) :
    splitFirst '/' (a ++ '/' :: b) = some (a, b) := by
  induction a with
  | nil => simp [splitFirst]
  | cons c cs ih =>
    have hh : (('/' == c && true) || charsInfix ['/'] cs) = false := h
    rw [Bool.or_eq_false_iff] at hh
    have hc : (c == '/') = false := by
      rcases hh with ⟨h1, _⟩
      simp only [Bool.and_true] at h1
      cases hcc : c == '/'
      · rfl
      · rw [beq_iff_eq] at hcc
        subst hcc
        simp at h1
    simp [splitFirst, hc, ih hh.2]

/-- A slash-free list does not split. -/
lemma splitFirst_none (a : List Char) (h : charsInfix ['/'] a = false) :
    splitFirst '/' a = none := by
  induction a with
  | nil => rfl
  | cons c cs ih =>
    have hh : (('/' == c && true) || charsInfix ['/'] cs) = false := h
    rw [Bool.or_eq_false_iff] at hh
    have hc : (c == '/') = false := by
      rcases hh with ⟨h1, _⟩
      simp only [Bool.and_true] at h1
      cases hcc : c == '/'
      · rfl
      · rw [beq_iff_eq] at hcc
        subst hcc
        simp at h1
    simp [splitFirst, hc, ih hh.2]

/-- SplitN with limit two on name/rest cuts at the first slash. -/
lemma goSplitN2_eq (s rn rel : String) (hs : s.data = rn.data ++ '/' :: rel.data)
    (h : charsInfix ['/'] rn.data = false) : goSplitN2 s = [rn, rel] := by
  unfold goSplitN2
  rw [hs, splitFirst_append _ _ h]

/-- SplitN with limit two on a slash-free string returns it whole. -/
lemma goSplitN2_single (s : String) (h : charsInfix ['/'] s.data = false) :
    goSplitN2 s = [s] := by
  unfold goSplitN2
  rw [splitFirst_none _ h]

/-! ## Lemmas about the importFiles loop -/

/-- Unfolding of processEntry on a well-formed files/name/rest entry name
with a slash-free repository name. -/
lemma processEntry_files (mk cr : String → Bool) (manifest : Manifest)
    (baseDir : String) (dirEx : String → Bool) (e : ZipEntry) (rn rel : String)
    (hname : e.name = "files/" ++ rn ++ "/" ++ rel)
    (hslash : goContains rn "/" = false) :
    processEntry mk cr manifest baseDir dirEx e =
      match lookupRepo manifest.Repos rn with
      | none => none
      | some repo =>
        if mk (goDir (resolveDestPath baseDir dirEx repo rel)) then
          if cr (resolveDestPath baseDir dirEx repo rel) then
            some (.extracted e.name (resolveDestPath baseDir dirEx repo rel) e.content)
          else some (.failedExtract e.name rel)
        else some (.failedMkdir e.name rel) := by
  have hdata : e.name.data = "files/".data ++ (rn.data ++ '/' :: rel.data) := by
    rw [hname]
    simp [String.data_append]
  have h1 : goHasPfx e.name "files/" = true := by
    unfold goHasPfx
    rw [hdata]
    exact charsPfx_append_self _ _
  have h2 : goTrimPfx e.name "files/" = String.mk (rn.data ++ '/' :: rel.data) := by
    unfold goTrimPfx
    rw [hdata, charsPfx_append_self]
    simp [drop_length_append]
  have h3 : goSplitN2 (String.mk (rn.data ++ '/' :: rel.data)) = [rn, rel] :=
    goSplitN2_eq _ _ _ rfl hslash
  unfold processEntry
  rw [h1, h2, h3]
  rfl

/-- processEntry skips an entry under files/ whose remainder has no
second path segment. -/
lemma processEntry_no_second_segment (mk cr : String → Bool) (manifest : Manifest)
    (baseDir : String) (dirEx : String → Bool) (e : ZipEntry) (rn : String)
    (hname : e.name = "files/" ++ rn)
    (hslash : goContains rn "/" = false) :
    processEntry mk cr manifest baseDir dirEx e = none := by
  have hdata : e.name.data = "files/".data ++ rn.data := by
    rw [hname]
    exact String.data_append _ _
  have h1 : goHasPfx e.name "files/" = true := by
    unfold goHasPfx
    rw [hdata]
    exact charsPfx_append_self _ _
  have h2 : goTrimPfx e.name "files/" = String.mk rn.data := by
    unfold goTrimPfx
    rw [hdata, charsPfx_append_self]
    simp [drop_length_append]
  have h3 : goSplitN2 (String.mk rn.data) = [String.mk rn.data] :=
    goSplitN2_single _ hslash
  unfold processEntry
  rw [h1, h2, h3]
  rfl

/-- Every event an importFiles loop iteration reports carries the name of
the zip entry it was produced from. -/
lemma processEntry_eventName (mk cr : String → Bool) (manifest : Manifest)
    (baseDir : String) (dirEx : String → Bool) (e : ZipEntry) (ev : ImportEvent)
    (h : processEntry mk cr manifest baseDir dirEx e = some ev) :
    eventName ev = e.name := by
  unfold processEntry at h
  split at h
  · split at h
    · split at h
      · exact absurd h (by simp)
      · split at h
        · split at h
          · simp only [Option.some.injEq] at h
            rw [← h]
            rfl
          · simp only [Option.some.injEq] at h
            rw [← h]
            rfl
        · simp only [Option.some.injEq] at h
          rw [← h]
          rfl
    · exact absurd h (by simp)
  · exact absurd h (by simp)

/-! ## Lemmas about the Scan loop -/

/-- Sum of the sizes of a list of ignored files. -/
def sumSizes (fs : List IgnoredFile) : Nat := (fs.map (fun f => f.Size)).sum

/-- Number of secret-flagged files in a list of ignored files. -/
def countSecrets (fs : List IgnoredFile) : Nat := fs.countP (fun f => f.IsSecret)

/-- One scan step preserves the aggregate equations. -/
lemma scanStep_aggregates (s : Scanner) (inp : ScanInput) (acc : ScanResult)
    (p : String)
    (h1 : acc.TotalSize = sumSizes acc.IgnoredFiles)
    (h2 : acc.SecretCount = countSecrets acc.IgnoredFiles) :
    (scanStep s inp acc p).TotalSize = sumSizes (scanStep s inp acc p).IgnoredFiles ∧
      (scanStep s inp acc p).SecretCount =
        countSecrets (scanStep s inp acc p).IgnoredFiles := by
  unfold scanStep
  split
  · exact ⟨h1, h2⟩
  · split
    · exact ⟨h1, h2⟩
    · split
      · exact ⟨h1, h2⟩
      · split
        · constructor
          · simp [sumSizes, h1]
          · simp [countSecrets, List.countP_append, List.countP_cons, h2]
        · exact ⟨h1, h2⟩

/-- The scan loop preserves the aggregate equations. -/
lemma scanFold_aggregates (s : Scanner) (inp : ScanInput) (l : List String)
    (acc : ScanResult)
    (h1 : acc.TotalSize = sumSizes acc.IgnoredFiles)
    (h2 : acc.SecretCount = countSecrets acc.IgnoredFiles) :
    (l.foldl (scanStep s inp) acc).TotalSize =
        sumSizes (l.foldl (scanStep s inp) acc).IgnoredFiles ∧
      (l.foldl (scanStep s inp) acc).SecretCount =
        countSecrets (l.foldl (scanStep s inp) acc).IgnoredFiles := by
  induction l generalizing acc with
  | nil => exact ⟨h1, h2⟩
  | cons p ps ih =>
    have hs := scanStep_aggregates s inp acc p h1 h2
    exact ih _ hs.1 hs.2

/-- One scan step only ever appends files whose secret flag and category
are the classifier outputs for their path. -/
lemma scanStep_classified (s : Scanner) (inp : ScanInput) (acc : ScanResult)
    (p : String)
    (h : ∀ f ∈ acc.IgnoredFiles,
      f.Category = categorizeFile f.Path ∧ f.IsSecret = isSecretFile f.Path f.Category) :
    ∀ f ∈ (scanStep s inp acc p).IgnoredFiles,
      f.Category = categorizeFile f.Path ∧ f.IsSecret = isSecretFile f.Path f.Category := by
  unfold scanStep
  split
  · exact h
  · split
    · exact h
    · split
      · exact h
      · split
        · intro f hf
          simp only [List.mem_append, List.mem_singleton] at hf
          rcases hf with hf | hf
          · exact h f hf
          · subst hf
            exact ⟨rfl, rfl⟩
        · exact h

/-- The scan loop only produces classifier-consistent files. -/
lemma scanFold_classified (s : Scanner) (inp : ScanInput) (l : List String)
    (acc : ScanResult)
    (h : ∀ f ∈ acc.IgnoredFiles,
      f.Category = categorizeFile f.Path ∧ f.IsSecret = isSecretFile f.Path f.Category) :
    ∀ f ∈ (l.foldl (scanStep s inp) acc).IgnoredFiles,
      f.Category = categorizeFile f.Path ∧ f.IsSecret = isSecretFile f.Path f.Category := by
  induction l generalizing acc with
  | nil => exact h
  | cons p ps ih => exact ih _ (scanStep_classified s inp acc p h)

/-- Every file of a scan result carries the classifier outputs for its
path. -/
lemma scan_classified (s : Scanner) (inp : ScanInput) :
    ∀ f ∈ (Scan s inp).IgnoredFiles,
      f.Category = categorizeFile f.Path ∧ f.IsSecret = isSecretFile f.Path f.Category := by
  unfold Scan
  split
  · exact scanFold_classified s inp _ _ (by intro f hf; exact absurd hf (by simp))
  · intro f hf
    exact absurd hf (by simp)

/-! ## Concrete environments used by the claims -/

/-- Scan environment of a repository my-app containing exactly the two
secret ignored files of the round-trip scenario, with arbitrary sizes. -/
def c1Input (n1 n2 : Nat) : ScanInput :=
  { rootPath := "/home/user/my-app", isRepo := true,
    ignoredPaths := [".env", "config/.env.local"],
    stat := fun p =>
      if p = "/home/user/my-app/.env" then some { IsDir := false, Size := n1 }
      else if p = "/home/user/my-app/config/.env.local" then
        some { IsDir := false, Size := n2 }
      else none }

/-- Source filesystem of the round-trip scenario, with arbitrary bytes. -/
def c1SrcFs (a b : List Nat) : String → Option (List Nat) := fun p =>
  if p = "/home/user/my-app/.env" then some a
  else if p = "/home/user/my-app/config/.env.local" then some b
  else none

/-- The archive the export pipeline builds in the round-trip scenario. -/
def c1Archive (a b : List Nat) (n1 n2 : Nat) : Archive :=
  createExportZip (c1SrcFs a b) none "host" 0
    (collectSingleRepo (exportScanner false) (c1Input n1 n2))

/-- The events a restore of that archive into /tmp/restore produces on a
machine where no exported path exists and every filesystem write succeeds. -/
def c1Events (a b : List Nat) (n1 n2 : Nat) : List ImportEvent :=
  importFiles (fun _ => true) (fun _ => true) (c1Archive a b n1 n2).entries
    (c1Archive a b n1 n2).manifest "/tmp/restore" (fun _ => false)

set_option maxHeartbeats 2000000 in
/-- Claim C1: exporting repository my-app containing exactly the secret
ignored files .env and config/.env.local and importing the archive with
baseDir /tmp/restore into an empty destination recreates both files at
/tmp/restore/my-app/.env and /tmp/restore/my-app/config/.env.local with
identical byte content, with 2 per-file successes and 0 failures. -/
theorem c1_round_trip (a b : List Nat) (n1 n2 : Nat) :
    countSuccesses (c1Events a b n1 n2) = 2
    ∧ countFailures (c1Events a b n1 n2) = 0
    ∧ applyEvents (c1Events a b n1 n2) (fun _ => none)
        "/tmp/restore/my-app/.env" = some a
    ∧ applyEvents (c1Events a b n1 n2) (fun _ => none)
        "/tmp/restore/my-app/config/.env.local" = some b := by
  have h : c1Events a b n1 n2 =
      [.extracted "files/my-app/.env" "/tmp/restore/my-app/.env" a,
       .extracted "files/my-app/config/.env.local"
         "/tmp/restore/my-app/config/.env.local" b] := rfl
  rw [h]
  exact ⟨rfl, rfl, rfl, rfl⟩

/-- Claim C1 witness at concrete bytes and sizes. -/
theorem c1_round_trip_witness :
    countSuccesses (c1Events [1, 2] [3] 4 5) = 2
    ∧ countFailures (c1Events [1, 2] [3] 4 5) = 0
    ∧ applyEvents (c1Events [1, 2] [3] 4 5) (fun _ => none)
        "/tmp/restore/my-app/.env" = some [1, 2]
    ∧ applyEvents (c1Events [1, 2] [3] 4 5) (fun _ => none)
        "/tmp/restore/my-app/config/.env.local" = some [3] :=
  c1_round_trip [1, 2] [3] 4 5

/-- Manifest of an archive whose manifest lists missing.txt although the
archive holds no files/r/missing.txt entry. -/
def c2Manifest : Manifest :=
  { Version := 1, CreatedAt := 0, Machine := "m",
    Repos := [{ Name := "r", Path := "/gone", Files := [".env", "missing.txt"] }] }

/-- Entries of that archive: the manifest record and the one present file. -/
def c2Entries : List ZipEntry :=
  [{ name := "manifest.yaml", content := [0] },
   { name := "files/r/.env", content := [7] }]

/-- Claim C2 counterexample: restoring an archive whose manifest lists
missing.txt with no corresponding files/r/missing.txt entry records zero
per-file failures, not the exactly one failure the claim requires; the one
present file is still extracted. -/
theorem c2_counterexample :
    importFiles (fun _ => true) (fun _ => true) c2Entries c2Manifest ""
        (fun _ => false)
      = [.extracted "files/r/.env" "r/.env" [7]]
    ∧ countFailures (importFiles (fun _ => true) (fun _ => true) c2Entries
        c2Manifest "" (fun _ => false)) = 0 :=
  ⟨rfl, rfl⟩

/-- Claim C2 as amended: a manifest-listed file with no corresponding
files/ entry is silently skipped — every reported event stems from an
actual archive entry and carries its name, so no per-file failure (or any
event) is recorded for the missing file — and the restore is archive-wide:
every archive entry whose processing yields an event still contributes it,
so the remaining files are extracted regardless. -/
theorem c2_missing_entry_silent (mk cr : String → Bool) (entries : List ZipEntry)
    (manifest : Manifest) (baseDir : String) (dirEx : String → Bool) :
    (∀ ev ∈ importFiles mk cr entries manifest baseDir dirEx,
      ∃ e ∈ entries, eventName ev = e.name)
    ∧ (∀ nm : String, (∀ e ∈ entries, e.name ≠ nm) →
        ∀ ev ∈ importFiles mk cr entries manifest baseDir dirEx, eventName ev ≠ nm)
    ∧ (∀ e ∈ entries, ∀ ev : ImportEvent,
        processEntry mk cr manifest baseDir dirEx e = some ev →
        ev ∈ importFiles mk cr entries manifest baseDir dirEx) := by
  refine ⟨?_, ?_, ?_⟩
  · intro ev hev
    rcases List.mem_filterMap.mp hev with ⟨e, he, hpe⟩
    exact ⟨e, he, processEntry_eventName mk cr manifest baseDir dirEx e ev hpe⟩
  · intro nm hnm ev hev
    rcases List.mem_filterMap.mp hev with ⟨e, he, hpe⟩
    rw [processEntry_eventName mk cr manifest baseDir dirEx e ev hpe]
    exact hnm e he
  · intro e he ev hpe
    exact List.mem_filterMap.mpr ⟨e, he, hpe⟩

/-- Claim C2 amended witness: in the concrete archive above, no event at
all is reported for the missing manifest entry. -/
theorem c2_missing_entry_silent_witness :
    ∀ ev ∈ importFiles (fun _ => true) (fun _ => true) c2Entries c2Manifest ""
        (fun _ => false), eventName ev ≠ "files/r/missing.txt" :=
  (c2_missing_entry_silent (fun _ => true) (fun _ => true) c2Entries c2Manifest ""
    (fun _ => false)).2.1 "files/r/missing.txt" (by decide)

/-- Manifest of the traversal scenario: one repository my-app. -/
def c3Manifest : Manifest :=
  { Version := 1, CreatedAt := 0, Machine := "m",
    Repos := [{ Name := "my-app", Path := "/gone", Files := [".env"] }] }

/-- Claim C3, behaviour at the failing input: an archive entry whose
relative path climbs out of the repository destination with a dotdot
component is not rejected — it is extracted as a success to
/tmp/restore/outside.txt, which lies outside the repository destination
/tmp/restore/my-app/, and no per-file failure is recorded. -/
theorem c3_traversal_extracted :
    importFiles (fun _ => true) (fun _ => true)
        [{ name := "files/my-app/../outside.txt", content := [9] }]
        c3Manifest "/tmp/restore" (fun _ => false)
      = [.extracted "files/my-app/../outside.txt" "/tmp/restore/outside.txt" [9]]
    ∧ countFailures (importFiles (fun _ => true) (fun _ => true)
        [{ name := "files/my-app/../outside.txt", content := [9] }]
        c3Manifest "/tmp/restore" (fun _ => false)) = 0
    ∧ goHasPfx "/tmp/restore/outside.txt" "/tmp/restore/my-app/" = false :=
  ⟨rfl, rfl, rfl⟩

/-- Scan environment with one secret ignored file and one non-secret
ignored file. -/
def c4Input : ScanInput :=
  { rootPath := "/home/user/my-app", isRepo := true,
    ignoredPaths := [".env", "build/output.log"],
    stat := fun p =>
      if p = "/home/user/my-app/.env" then some { IsDir := false, Size := 10 }
      else if p = "/home/user/my-app/build/output.log" then
        some { IsDir := false, Size := 20 }
      else none }

/-- Claim C4: every RepoExport the export pipeline produces lists exactly
the paths of the secret-flagged scanned files; the export scanner always
runs with ShowAll false; concretely, a repository with secret .env and
non-secret build/output.log exports only .env. -/
theorem c4_export_restricts_to_secrets :
    (∀ (s : Scanner) (inp : ScanInput), ∀ re ∈ collectSingleRepo s inp,
      re.Files = ((Scan s inp).IgnoredFiles.filter (fun f => f.IsSecret)).map
        (fun f => f.Path))
    ∧ (∀ d : Bool, (exportScanner d).ShowAll = false)
    ∧ (collectSingleRepo (exportScanner false) c4Input).map (fun re => re.Files)
        = [[".env"]] := by
  refine ⟨?_, fun d => rfl, by rfl⟩
  intro s inp re hre
  unfold collectSingleRepo at hre
  split at hre
  · exact absurd hre (by simp)
  · split at hre
    · exact absurd hre (by simp)
    · simp only [List.mem_singleton] at hre
      subst hre
      rfl

/-- Claim C4 witness: the concrete RepoExport of the mixed repository. -/
theorem c4_export_restricts_to_secrets_witness :
    ({ Name := "my-app", Path := "/home/user/my-app", Files := [".env"] } :
        RepoExport).Files
      = ((Scan (exportScanner false) c4Input).IgnoredFiles.filter
          (fun f => f.IsSecret)).map (fun f => f.Path) :=
  c4_export_restricts_to_secrets.1 (exportScanner false) c4Input _ (by decide)

/-- Claim C5: the restore destination is resolved by trying, in priority
order, the base-directory override, then the exported absolute repository
path when it exists here, then the repository name under the current
directory; the three concrete cases show each rule producing its path
(the last, a cwd-relative path, is rendered without a leading dot by
filepath.Join). -/
theorem c5_destination_fallback_order :
    (∀ (baseDir : String) (dirEx : String → Bool) (repo : RepoExport)
        (file : String),
      resolveDestPath baseDir dirEx repo file =
        if baseDir ≠ "" then goJoinList [baseDir, repo.Name, file]
        else if dirEx repo.Path then goJoinList [repo.Path, file]
        else goJoinList [".", repo.Name, file])
    ∧ resolveDestPath "/base" (fun _ => true)
        { Name := "app", Path := "/orig", Files := [] } "f.txt" = "/base/app/f.txt"
    ∧ resolveDestPath "" (fun _ => true)
        { Name := "app", Path := "/orig", Files := [] } "f.txt" = "/orig/f.txt"
    ∧ resolveDestPath "" (fun _ => false)
        { Name := "app", Path := "/orig", Files := [] } "f.txt" = "app/f.txt" :=
  ⟨fun _ _ _ _ => rfl, rfl, rfl, rfl⟩

/-- Modelled from the claim text, for comparison with the code: the build
category test the claim describes, true only when a whole slash-separated
path segment equals one of the build directory names. -/
def specBuildSegment (path : String) : Bool :=
  ((splitOnChar '/' path.data).map String.mk).any (fun seg => buildDirs.contains seg)

/-- Claim C6 counterexample: my_dist/x has no build directory name as a
whole segment, yet categorizeFile assigns it category build, because the
code tests substring containment of name-slash anywhere in the path. -/
theorem c6_counterexample :
    categorizeFile "my_dist/x" = "build" ∧ specBuildSegment "my_dist/x" = false :=
  ⟨rfl, rfl⟩

/-- Claim C6 as amended: on paths where the env, key and config rules do
not match, classify assigns category build exactly when the path contains
one of the build directory names immediately followed by a slash as a
substring anywhere (not necessarily as a whole segment), or equals such a
name outright. -/
theorem c6_build_substring (path : String)
    (h1 : envCond (goToLower (goBase path)) = false)
    (h2 : keyCond (goToLower (goBase path)) (goToLower (goExt path)) = false)
    (h3 : configCond (goToLower (goBase path)) (goToLower (goExt path)) = false) :
    categorizeFile path = "build" ↔ buildCond path = true := by
  unfold categorizeFile
  rw [h1, h2, h3]
  cases hb : buildCond path
  · simp only [Bool.false_eq_true, if_false]
    constructor
    · intro hcat
      split at hcat
      · exact absurd hcat (by decide)
      · split at hcat
        · exact absurd hcat (by decide)
        · exact absurd hcat (by decide)
    · intro hfalse
      exact absurd hfalse (by decide)
  · simp

/-- Claim C6 amended witness at the substring-only path my_dist/x. -/
theorem c6_build_substring_witness :
    categorizeFile "my_dist/x" = "build" ↔ buildCond "my_dist/x" = true :=
  c6_build_substring "my_dist/x" (by decide) (by decide) (by decide)

/-- Claim C7: the category rules are evaluated in the fixed order env,
key, config, build, cache, ide, other with the first match winning — one
conjunct per rule, each conditioned on exactly the failure of every
earlier rule; in particular .env.production is category env despite
having no recognized extension, and config/app.secret.yaml is category
key (keyword precedence over config-by-extension) and flagged secret. -/
theorem c7_category_precedence :
    (∀ path : String, envCond (goToLower (goBase path)) = true →
      categorizeFile path = "env")
    ∧ (∀ path : String, envCond (goToLower (goBase path)) = false →
        keyCond (goToLower (goBase path)) (goToLower (goExt path)) = true →
        categorizeFile path = "key")
    ∧ (∀ path : String, envCond (goToLower (goBase path)) = false →
        keyCond (goToLower (goBase path)) (goToLower (goExt path)) = false →
        configCond (goToLower (goBase path)) (goToLower (goExt path)) = true →
        categorizeFile path = "config")
    ∧ (∀ path : String, envCond (goToLower (goBase path)) = false →
        keyCond (goToLower (goBase path)) (goToLower (goExt path)) = false →
        configCond (goToLower (goBase path)) (goToLower (goExt path)) = false →
        buildCond path = true →
        categorizeFile path = "build")
    ∧ (∀ path : String, envCond (goToLower (goBase path)) = false →
        keyCond (goToLower (goBase path)) (goToLower (goExt path)) = false →
        configCond (goToLower (goBase path)) (goToLower (goExt path)) = false →
        buildCond path = false →
        cacheCond path (goToLower (goBase path)) = true →
        categorizeFile path = "cache")
    ∧ (∀ path : String, envCond (goToLower (goBase path)) = false →
        keyCond (goToLower (goBase path)) (goToLower (goExt path)) = false →
        configCond (goToLower (goBase path)) (goToLower (goExt path)) = false →
        buildCond path = false →
        cacheCond path (goToLower (goBase path)) = false →
        ideCond path = true →
        categorizeFile path = "ide")
    ∧ (∀ path : String, envCond (goToLower (goBase path)) = false →
        keyCond (goToLower (goBase path)) (goToLower (goExt path)) = false →
        configCond (goToLower (goBase path)) (goToLower (goExt path)) = false →
        buildCond path = false →
        cacheCond path (goToLower (goBase path)) = false →
        ideCond path = false →
        categorizeFile path = "other")
    ∧ categorizeFile ".env.production" = "env"
    ∧ categorizeFile "config/app.secret.yaml" = "key"
    ∧ isSecretFile "config/app.secret.yaml"
        (categorizeFile "config/app.secret.yaml") = true := by
  refine ⟨?_, ?_, ?_, ?_, ?_, ?_, ?_, rfl, rfl, rfl⟩
  · intro p h
    unfold categorizeFile
    rw [h]
    rfl
  · intro p h1 h2
    unfold categorizeFile
    rw [h1, h2]
    rfl
  · intro p h1 h2 h3
    unfold categorizeFile
    rw [h1, h2, h3]
    rfl
  · intro p h1 h2 h3 h4
    unfold categorizeFile
    rw [h1, h2, h3, h4]
    rfl
  · intro p h1 h2 h3 h4 h5
    unfold categorizeFile
    rw [h1, h2, h3, h4, h5]
    rfl
  · intro p h1 h2 h3 h4 h5 h6
    unfold categorizeFile
    rw [h1, h2, h3, h4, h5, h6]
    rfl
  · intro p h1 h2 h3 h4 h5 h6
    unfold categorizeFile
    rw [h1, h2, h3, h4, h5, h6]
    rfl

/-- Claim C7 witness: each of the seven precedence rules applied at a
concrete path, discharging the failure of every earlier rule. -/
theorem c7_category_precedence_witness :
    categorizeFile ".envrc" = "env"
    ∧ categorizeFile "token.txt" = "key"
    ∧ categorizeFile "settings.json" = "config"
    ∧ categorizeFile "dist/a.js" = "build"
    ∧ categorizeFile ".cache/x" = "cache"
    ∧ categorizeFile ".idea/x" = "ide"
    ∧ categorizeFile "notes.txt" = "other" :=
  ⟨c7_category_precedence.1 ".envrc" (by decide),
   c7_category_precedence.2.1 "token.txt" (by decide) (by decide),
   c7_category_precedence.2.2.1 "settings.json" (by decide) (by decide) (by decide),
   c7_category_precedence.2.2.2.1 "dist/a.js" (by decide) (by decide) (by decide)
     (by decide),
   c7_category_precedence.2.2.2.2.1 ".cache/x" (by decide) (by decide) (by decide)
     (by decide) (by decide),
   c7_category_precedence.2.2.2.2.2.1 ".idea/x" (by decide) (by decide) (by decide)
     (by decide) (by decide) (by decide),
   c7_category_precedence.2.2.2.2.2.2.1 "notes.txt" (by decide) (by decide)
     (by decide) (by decide) (by decide) (by decide)⟩

/-- Claim C8: the classifier flags a path secret exactly when its category
is env or key or its lowercased basename contains one of the secret
keywords; consequently every scanned IgnoredFile with category env or key
has IsSecret true. -/
theorem c8_secret_derivation :
    (∀ path : String, isSecretFile path (categorizeFile path) = true ↔
      (categorizeFile path = "env" ∨ categorizeFile path = "key"
        ∨ hasSecretName path = true))
    ∧ (∀ (s : Scanner) (inp : ScanInput), ∀ f ∈ (Scan s inp).IgnoredFiles,
        (f.Category = "env" ∨ f.Category = "key") → f.IsSecret = true) := by
  constructor
  · intro p
    unfold isSecretFile
    by_cases h1 : categorizeFile p = "env"
    · simp [h1]
    · by_cases h2 : categorizeFile p = "key"
      · simp [h1, h2]
      · simp [h1, h2]
  · intro s inp f hf hcat
    have hcl := scan_classified s inp f hf
    rw [hcl.2]
    rcases hcat with h | h <;> simp [isSecretFile, h]

/-- Concrete one-file scan environment shared by the C8 and C9
witnesses. -/
def smallInput : ScanInput :=
  { rootPath := "/r", isRepo := true, ignoredPaths := [".env"],
    stat := fun p => if p = "/r/.env" then some { IsDir := false, Size := 1 } else none }

/-- Claim C8 witness: the env-category file the small scan produces is
flagged secret. -/
theorem c8_secret_derivation_witness :
    ({ Path := ".env", Size := 1, IsSecret := true, Category := "env" } :
      IgnoredFile).IsSecret = true :=
  c8_secret_derivation.2 NewScanner smallInput _ (by decide) (Or.inl rfl)

/-- Claim C9: in every scan result the total size is the sum of the sizes
of the included files and the secret count is the number of included files
flagged secret — the aggregates range over exactly the included entries. -/
theorem c9_aggregate_consistency (s : Scanner) (inp : ScanInput) :
    (Scan s inp).TotalSize = sumSizes (Scan s inp).IgnoredFiles
    ∧ (Scan s inp).SecretCount = countSecrets (Scan s inp).IgnoredFiles := by
  unfold Scan
  split
  · exact scanFold_aggregates s inp _ _ rfl rfl
  · exact ⟨rfl, rfl⟩

/-- Claim C9 witness at the concrete one-file scan. -/
theorem c9_aggregate_consistency_witness :
    (Scan NewScanner smallInput).TotalSize =
        sumSizes (Scan NewScanner smallInput).IgnoredFiles
    ∧ (Scan NewScanner smallInput).SecretCount =
        countSecrets (Scan NewScanner smallInput).IgnoredFiles :=
  c9_aggregate_consistency NewScanner smallInput

/-- Claim C10: restore extraction is archive-driven: every archive entry
files/name/rest whose name is the Name of a manifest repository is
extracted to its resolved destination once the filesystem steps succeed,
with no requirement that rest appear in that repository Files list;
entries naming no manifest repository, and entries with no second path
segment, are skipped silently with no event. -/
theorem c10_archive_driven (mk cr : String → Bool) (entries : List ZipEntry)
    (manifest : Manifest) (baseDir : String) (dirEx : String → Bool) :
    (∀ e ∈ entries, ∀ (rn rel : String) (repo : RepoExport),
      e.name = "files/" ++ rn ++ "/" ++ rel → goContains rn "/" = false →
      lookupRepo manifest.Repos rn = some repo →
      mk (goDir (resolveDestPath baseDir dirEx repo rel)) = true →
      cr (resolveDestPath baseDir dirEx repo rel) = true →
      ImportEvent.extracted e.name (resolveDestPath baseDir dirEx repo rel) e.content
        ∈ importFiles mk cr entries manifest baseDir dirEx)
    ∧ (∀ (e : ZipEntry) (rn rel : String),
        e.name = "files/" ++ rn ++ "/" ++ rel → goContains rn "/" = false →
        lookupRepo manifest.Repos rn = none →
        processEntry mk cr manifest baseDir dirEx e = none)
    ∧ (∀ (e : ZipEntry) (rn : String),
        e.name = "files/" ++ rn → goContains rn "/" = false →
        processEntry mk cr manifest baseDir dirEx e = none) := by
  refine ⟨?_, ?_, ?_⟩
  · intro e he rn rel repo hname hslash hlook hmk hcr
    refine List.mem_filterMap.mpr ⟨e, he, ?_⟩
    rw [processEntry_files mk cr manifest baseDir dirEx e rn rel hname hslash, hlook]
    simp [hmk, hcr]
  · intro e rn rel hname hslash hlook
    rw [processEntry_files mk cr manifest baseDir dirEx e rn rel hname hslash, hlook]
  · intro e rn hname hslash
    exact processEntry_no_second_segment mk cr manifest baseDir dirEx e rn hname hslash

/-- Manifest of the C10 witness: one repository r exporting no files. -/
def c10Manifest : Manifest :=
  { Version := 1, CreatedAt := 0, Machine := "m",
    Repos := [{ Name := "r", Path := "/gone", Files := [] }] }

/-- Claim C10 witness: an entry absent from the Files list of its
repository is still extracted; an unknown repository and a missing second
segment are skipped. -/
theorem c10_archive_driven_witness :
    ImportEvent.extracted "files/r/extra.txt" "/b/r/extra.txt" [1]
      ∈ importFiles (fun _ => true) (fun _ => true)
          [{ name := "files/r/extra.txt", content := [1] }] c10Manifest "/b"
          (fun _ => false)
    ∧ processEntry (fun _ => true) (fun _ => true) c10Manifest "/b" (fun _ => false)
        { name := "files/zzz/a", content := [2] } = none
    ∧ processEntry (fun _ => true) (fun _ => true) c10Manifest "/b" (fun _ => false)
        { name := "files/bare", content := [3] } = none := by
  refine ⟨?_, ?_, ?_⟩
  · exact (c10_archive_driven (fun _ => true) (fun _ => true)
      [{ name := "files/r/extra.txt", content := [1] }] c10Manifest "/b"
      (fun _ => false)).1 { name := "files/r/extra.txt", content := [1] }
      (List.mem_singleton.mpr rfl) "r" "extra.txt"
      { Name := "r", Path := "/gone", Files := [] } rfl (by decide) rfl rfl rfl
  · exact (c10_archive_driven (fun _ => true) (fun _ => true)
      [{ name := "files/r/extra.txt", content := [1] }] c10Manifest "/b"
      (fun _ => false)).2.1 { name := "files/zzz/a", content := [2] } "zzz" "a"
      rfl (by decide) rfl
  · exact (c10_archive_driven (fun _ => true) (fun _ => true)
      [{ name := "files/r/extra.txt", content := [1] }] c10Manifest "/b"
      (fun _ => false)).2.2 { name := "files/bare", content := [3] } "bare"
      rfl (by decide)

end Igloc
